import Mathlib

/-!
# Verification of the Tableau-API-Python shared core

Shallow embedding of the request/response core of the `Tableau-API-Python`
repository: protocol-version negotiation, endpoint-metadata initialization,
the envelope codec (decode/encode), the bounded stream view, and the
capability gate with its hosted-deployment classification.  Every definition
is translated from the corresponding Python source (file and line references
in the doc comments); machine behaviour such as Python tuple comparison is
made explicit.
-/

/-! ## Character and string helpers

Python string operations used by the source (`str.lower`, `str.replace`,
substring membership `in`, and the anchored regex of
`tableau_api_client.py`) are embedded as executable functions on `List Char`.
The identifiers involved are ASCII, so ASCII case folding is a faithful
model of `str.lower` on every input the code ever feeds it. -/

/-- ASCII lower-casing of one character (model of Python `str.lower` on
ASCII identifiers and hostnames). -/
def lowerChar (c : Char) : Char :=
  if 'A' ≤ c ∧ c ≤ 'Z' then Char.ofNat (c.toNat + 32) else c

/-- Lower-case a character list. -/
def lowerL (l : List Char) : List Char := l.map lowerChar

/-- Python `pat in l` for strings: contiguous-substring test.
`containsSub l pat` is true iff `pat` occurs contiguously inside `l`. -/
def containsSub (l pat : List Char) : Bool :=
  pat.isPrefixOf l ||
    match l with
    | [] => false
    | _ :: rest => containsSub rest pat

/-- Recursion core of `removeSub`, structurally recursive on a fuel
bound (one unit per consumed character suffices, since a match consumes
at least one character). -/
def removeSubAux (pat : List Char) : Nat → List Char → List Char
  | _, [] => []
  | 0, l => l
  | n + 1, c :: rest =>
    if pat ≠ [] ∧ pat.isPrefixOf (c :: rest) then
      removeSubAux pat n ((c :: rest).drop pat.length)
    else
      c :: removeSubAux pat n rest

/-- Python `s.replace(pat, '')` for a non-empty `pat`: delete every
left-to-right non-overlapping occurrence of `pat`. -/
def removeSub (pat l : List Char) : List Char :=
  removeSubAux pat l.length l

/-! ## Protocol version negotiation

`tableau_api_client.py`, `TableauApiClient.__init__`, lines 112-131.
Versions are pairs of Python `int`s, embedded as `Int × Int`.  Python
compares tuples lexicographically (`version_tuple < self._MIN_VERSION`),
which `pyTupleLt` spells out. -/

/-- Python tuple `<` on pairs of integers: lexicographic order. -/
def pyTupleLt (a b : Int × Int) : Bool :=
  a.1 < b.1 || (a.1 = b.1 && a.2 < b.2)

/-- Python tuple `<=` on pairs of integers. -/
def pyTupleLe (a b : Int × Int) : Bool :=
  pyTupleLt a b || (a.1 = b.1 && a.2 = b.2)

/-- `TableauApiClient._MIN_VERSION` (line 34). -/
def minVersion : Int × Int := (2, 0)

/-- `TableauApiClient._MAX_VERSION` (line 35). -/
def maxVersion : Int × Int := (3, 23)

/-- Version validation and negotiation from `__init__` (lines 112-131):
reject a version below `_MIN_VERSION` (Python tuple comparison);
keep the requested version when `major <= 3 and minor <= 23`
(note: componentwise, not lexicographic); otherwise fall back to
`_MAX_VERSION` with a warning. -/
def negotiateVersion (v : Int × Int) : Except Unit (Int × Int) :=
  if pyTupleLt v minVersion then
    .error ()
  else if v.1 ≤ maxVersion.1 && v.2 ≤ maxVersion.2 then
    .ok v
  else
    .ok maxVersion

/-- Constructor failure kinds (`ValueError` raised by `__init__`). -/
inductive InitError
  | emptyBaseUri
  | badVersion
deriving DecidableEq, Repr

/-- Python `s.startswith(pat)`. -/
def strStartsWith (s pat : String) : Bool :=
  pat.data.isPrefixOf s.data

/-- `__init__` lines 100-101: a base URI without an explicit scheme is
rewritten to `https://<uri>` before parsing. -/
def normalizeBaseUri (uri : String) : String :=
  if strStartsWith uri "http://" || strStartsWith uri "https://" then uri
  else "https://" ++ uri

/-- Remainder of the character list after the first `"://"`, or `[]`
when no scheme separator occurs. -/
def afterSchemeSep : List Char → List Char
  | [] => []
  | c :: rest =>
    if (':' :: '/' :: '/' :: []).isPrefixOf (c :: rest) then rest.drop 2
    else afterSchemeSep rest

/-- Drop everything up to and including the last `'@'` (userinfo). -/
def dropUserinfo (l : List Char) : List Char :=
  (l.reverse.takeWhile (· ≠ '@')).reverse

/-- Modelled from the spec: `urllib.parse.urlparse(...).hostname` is standard
library code outside this repository.  The spec's deployment-mode rules only
need that it yields the lower-cased host component of the URI: the part after
`"://"` and any userinfo, before the first `'/'` or port `':'`. -/
def hostnameOf (uri : String) : String :=
  ⟨lowerL ((dropUserinfo ((afterSchemeSep uri.data).takeWhile (· ≠ '/'))).takeWhile (· ≠ ':'))⟩

/-- The part of the constructed client state the verified claims depend on
(`__init__`): the parsed hostname and the negotiated API version. -/
structure ClientState where
  hostname : String
  apiVersion : Int × Int
deriving DecidableEq, Repr

/-- `__init__` (lines 95-131) restricted to base-URI validation, URI
normalization/parsing, and version negotiation.  A `ValueError` is embedded
as `Except.error`, so a failed construction yields no (partial) client
value at all. -/
def initClient (tableauBaseUri : String) (v : Int × Int) : Except InitError ClientState :=
  if tableauBaseUri = "" then .error .emptyBaseUri
  else
    match negotiateVersion v with
    | .error _ => .error .badVersion
    | .ok nv => .ok ⟨hostnameOf (normalizeBaseUri tableauBaseUri), nv⟩

/-! ## Endpoint metadata initialization

`tableau_api_client.py`, `TableauApiClient._initialize_endpoint_metadata`,
lines 44-67.  The class scans its own methods and every registered
sub-client's public methods for `_min_api_version` / `_on_premise_only`
markers, filling the class-level dict `_MIN_VERSION_FOR_ENDPOINTS` and list
`_ON_PREMISE_ONLY_ENDPOINTS`.  The registry contents (sub-client classes
live outside `src/`) are abstracted as data: a method is its name plus its
two optional markers. -/

/-- A scanned method: its name and its declared markers
(`_min_api_version`, `_on_premise_only`). -/
structure ScannedMethod where
  name : String
  minApiVersion : Option (Int × Int)
  onPremiseOnly : Bool
deriving DecidableEq, Repr

/-- A registry snapshot: the orchestrating class's own methods (in
`inspect.getmembers` order) and, per registered client type, that client's
methods. -/
structure RegistrySnapshot where
  mainMethods : List ScannedMethod
  clients : List (String × List ScannedMethod)
deriving DecidableEq, Repr

/-- The two class-level lookup tables. -/
structure EndpointMeta where
  minVersionForEndpoints : List (String × (Int × Int))
  onPremiseOnlyEndpoints : List String
deriving DecidableEq, Repr

/-- Initial (class-definition-time) state: both tables empty (lines 36-37). -/
def emptyMeta : EndpointMeta := ⟨[], []⟩

/-- One scan pass over a method list under a key-building function:
the `(name, min_version)` entries added to the dict, in order. -/
def scanMinEntries (keyOf : String → String) (ms : List ScannedMethod) :
    List (String × (Int × Int)) :=
  ms.filterMap fun m => (m.minApiVersion).map fun v => (keyOf m.name, v)

/-- One scan pass over a method list: the names appended to the
on-premise-only list, in order. -/
def scanOnPremEntries (keyOf : String → String) (ms : List ScannedMethod) :
    List String :=
  (ms.filter (·.onPremiseOnly)).map fun m => keyOf m.name

/-- Lines 59-61: sub-client methods whose name starts with `'_'` are
skipped; main-class methods are not filtered. -/
def publicOnly (ms : List ScannedMethod) : List ScannedMethod :=
  ms.filter fun m => !(m.name.startsWith "_")

/-- The dict entries one full scan of the registry produces:
main-class methods keyed by bare name, then each client's public methods
keyed by `"{client_type}.{name}"` (lines 50-67). -/
def scannedMinMap (reg : RegistrySnapshot) : List (String × (Int × Int)) :=
  scanMinEntries id reg.mainMethods ++
    reg.clients.flatMap fun c =>
      scanMinEntries (fun n => c.1 ++ "." ++ n) (publicOnly c.2)

/-- The on-premise-only names one full scan of the registry produces. -/
def scannedOnPrem (reg : RegistrySnapshot) : List String :=
  scanOnPremEntries id reg.mainMethods ++
    reg.clients.flatMap fun c =>
      scanOnPremEntries (fun n => c.1 ++ "." ++ n) (publicOnly c.2)

/-- `_initialize_endpoint_metadata` (lines 44-67): return unchanged when the
min-version dict is non-empty (`if cls._MIN_VERSION_FOR_ENDPOINTS: return`),
otherwise scan and append to both class-level tables.  Note the guard
inspects only the dict, never the on-premise-only list. -/
def initEndpointMetadata (reg : RegistrySnapshot) (st : EndpointMeta) : EndpointMeta :=
  if st.minVersionForEndpoints ≠ [] then st
  else
    { minVersionForEndpoints := st.minVersionForEndpoints ++ scannedMinMap reg
      onPremiseOnlyEndpoints := st.onPremiseOnlyEndpoints ++ scannedOnPrem reg }

/-! ## Envelope codec — data model

The wire envelope types `TsResponse` / `TsRequest` are xsdata dataclasses in
`models/ts_api.py`.  Runtime values are embedded as tagged objects
(`isinstance(x, C)` on these generated dataclasses, which do not inherit
from one another, is tag equality); a response field holds nothing, one
object, or a sequence of objects.  The slot set itself is left abstract:
the decode/encode functions below quantify over it. -/

/-- A runtime payload object: its Python type name (the `isinstance` tag)
and an identity distinguishing instances of the same type. -/
structure PyObj where
  tyName : String
  objId : Nat
deriving DecidableEq, Repr

/-- The value held by one `TsResponse` field: `None`, a direct dataclass
instance, or a list-like collection of instances.  (The `items`-attribute
wrapper branch of the source scans its `items` in order exactly as the
list branch does, so it is covered by `coll`.) -/
inductive SlotVal
  | vNone
  | scalar (o : PyObj)
  | coll (os : List PyObj)
deriving DecidableEq, Repr

/-- One named `TsResponse` field in declaration order. -/
structure RespField where
  fieldName : String
  val : SlotVal
deriving DecidableEq, Repr

/-- A parsed response envelope: its fields in `dataclasses.fields` order. -/
abbrev Envelope := List RespField

/-- Response content handed to the decoders.  Parsing is performed by the
external `xsdata` `XmlParser`; content is abstracted by its parse result:
`none` for a document that cannot be parsed into the envelope shape
(the parser raises), `some env` for one that parses to `env`. -/
abbrev RespContent := Option Envelope

/-- All payload objects a field carries, in scan order. -/
def slotObjs : SlotVal → List PyObj
  | .vNone => []
  | .scalar o => [o]
  | .coll os => os

/-- All payload objects of an envelope, in scan order. -/
def envObjs (env : Envelope) : List PyObj := env.flatMap fun f => slotObjs f.val

/-! ## Envelope codec — decode

`tableau_api_client.py`, `_get_response_as_object` (lines 366-417) and
`_get_response_as_objects` (lines 419-482). -/

/-- The first object of the requested type inside one field
(`_get_response_as_object` body of the field loop, lines 383-410):
a direct `isinstance` match, else the first matching element of a
collection. -/
def firstMatchInSlot (t : String) : SlotVal → Option PyObj
  | .vNone => none
  | .scalar o => if o.tyName = t then some o else none
  | .coll os => os.find? fun o => o.tyName = t

/-- Field scan of `_get_response_as_object`: return at the first match,
`None` when the fields are exhausted. -/
def scanOne (t : String) : Envelope → Option PyObj
  | [] => none
  | f :: rest =>
    match firstMatchInSlot t f.val with
    | some o => some o
    | none => scanOne t rest

/-- `_get_response_as_object(content, target_class)` (lines 366-417):
a parse failure propagates out of the `except` block (`raise`), embedded
as `Except.error`; a parsed document is scanned and yields an optional
object. -/
def getResponseAsObject (content : RespContent) (t : String) :
    Except Unit (Option PyObj) :=
  match content with
  | none => .error ()
  | some env => .ok (scanOne t env)

/-- One object examined by `_get_response_as_objects` (lines 447-469):
the `if result1 is None and isinstance(...) ... elif result2 is None and
isinstance(...)` update applied to the pair of partial results. -/
def stepTwo (t1 t2 : String) (r : Option PyObj × Option PyObj) (o : PyObj) :
    Option PyObj × Option PyObj :=
  if r.1 = none ∧ o.tyName = t1 then (some o, r.2)
  else if r.2 = none ∧ o.tyName = t2 then (r.1, some o)
  else r

/-- One field examined by `_get_response_as_objects`: the direct-match
`if/elif` on the field value, then the same `if/elif` per collection
element. -/
def stepTwoSlot (t1 t2 : String) (r : Option PyObj × Option PyObj) :
    SlotVal → Option PyObj × Option PyObj
  | .vNone => r
  | .scalar o => stepTwo t1 t2 r o
  | .coll os => os.foldl (stepTwo t1 t2) r

/-- Field scan of `_get_response_as_objects`, with the
`break` once both results are set (lines 473-475). -/
def scanTwo (t1 t2 : String) (r : Option PyObj × Option PyObj) :
    Envelope → Option PyObj × Option PyObj
  | [] => r
  | f :: rest =>
    let r' := stepTwoSlot t1 t2 r f.val
    if r'.1.isSome ∧ r'.2.isSome then r'
    else scanTwo t1 t2 r' rest

/-- `_get_response_as_objects(content, target_class1, target_class2)`
(lines 419-482).  Its `except` clause returns `(None, None)` instead of
re-raising (lines 479-482), so a parse failure produces a normal return,
never an exception: the result type is `Except` only to make that
observable, and no branch yields `.error`. -/
def getResponseAsObjects (content : RespContent) (t1 t2 : String) :
    Except Unit (Option PyObj × Option PyObj) :=
  match content with
  | none => .ok (none, none)
  | some env => .ok (scanTwo t1 t2 (none, none) env)

/-! ## Envelope codec — encode

`tableau_api_client.py`, `_get_object_as_request_content` (lines 484-560).
A `TsRequest` field's declared type annotation is `Optional`/`List`
wrappers around one named dataclass type. -/

/-- A declared field type annotation: a named class, `Optional[...]`,
or `List[...]`. -/
inductive PyTy
  | named (n : String)
  | optional (t : PyTy)
  | listOf (t : PyTy)
deriving DecidableEq, Repr

/-- Lines 499-509: strip one `Optional` wrapper (take the non-`None`
`Union` argument), then one `List` wrapper. -/
def unwrapFieldTy (t : PyTy) : PyTy :=
  let t1 := match t with | .optional u => u | x => x
  match t1 with | .listOf u => u | x => x

/-- Line 513: `isinstance(obj, field_type) or type(obj).__name__ ==
field_type.__name__`.  On the generated sibling dataclasses both reduce to
type-name equality; when unwrapping still leaves a wrapper (no plain
class), `isinstance` raises `TypeError`, which the `except ... continue`
turns into a non-match. -/
def typeMatches (ft : PyTy) (obj : PyObj) : Bool :=
  match unwrapFieldTy ft with
  | .named n => n = obj.tyName
  | _ => false

/-- Line 527: `obj_type_name.replace('type', '').replace('_', '')` applied
to the already lower-cased payload type name — every occurrence of
`"type"` is removed, not only a trailing suffix. -/
def objNameClean (tyName : String) : List Char :=
  removeSub "_".data (removeSub "type".data (lowerL tyName.data))

/-- Line 528: `field_name.replace('_', '')` on the lower-cased field name. -/
def fieldNameClean (fieldName : String) : List Char :=
  removeSub "_".data (lowerL fieldName.data)

/-- Lines 530-532: the fallback name-similarity test
(`obj_name_clean in field_name_clean or field_name_clean in obj_name_clean
or field_name == obj_name_clean`). -/
def fallbackMatch (tyName fieldName : String) : Bool :=
  containsSub (fieldNameClean fieldName) (objNameClean tyName) ||
    containsSub (objNameClean tyName) (fieldNameClean fieldName) ||
    lowerL fieldName.data = objNameClean tyName

/-- One declared `TsRequest` field: its name and type annotation. -/
structure ReqField where
  fieldName : String
  ty : PyTy
deriving DecidableEq, Repr

/-- The declared `TsRequest` slot set, in `dataclasses.fields` order. -/
abbrev ReqShape := List ReqField

/-- A request envelope under construction: per field, the object assigned
to it (all `None` in a fresh `TsRequest()`). -/
abbrev PopulatedReq := List (String × Option PyObj)

/-- `TsRequest()` (line 491): every slot empty. -/
def emptyRequest (shape : ReqShape) : PopulatedReq :=
  shape.map fun f => (f.fieldName, none)

/-- `setattr(ts_request, field.name, obj)` (lines 514, 533). -/
def setSlot (req : PopulatedReq) (n : String) (o : PyObj) : PopulatedReq :=
  req.map fun p => if p.1 = n then (p.1, some o) else p

/-- `_get_object_as_request_content` (lines 484-560) up to the populated
envelope: the first field whose unwrapped declared type matches wins
(`break`, line 516); otherwise the first field passing the name-similarity
fallback (`break`, line 535); otherwise the `ValueError` of line 538
(`UnmappablePayload`).  The subsequent serializer post-processing (prolog
removal, root-attribute stripping, self-closing root) rewrites the rendered
text only and cannot change which slot is populated. -/
def getObjectAsRequestContent (shape : ReqShape) (obj : PyObj) :
    Except Unit PopulatedReq :=
  match shape.find? (fun f => typeMatches f.ty obj) with
  | some f => .ok (setSlot (emptyRequest shape) f.fieldName obj)
  | none =>
    match shape.find? (fun f => fallbackMatch obj.tyName f.fieldName) with
    | some f => .ok (setSlot (emptyRequest shape) f.fieldName obj)
    | none => .error ()

/-- The claim's fallback cleaning, per its own words: the payload type name
has a trailing `"type"` suffix stripped (only a suffix), case-insensitively
via lower-casing, with underscores removed. -/
def claimNameClean (tyName : String) : List Char :=
  let lowered := lowerL tyName.data
  removeSub "_".data
    (if "type".data.isSuffixOf lowered then
      lowered.take (lowered.length - 4)
    else lowered)

/-- The claim's fallback match: substring containment in either direction
between the suffix-stripped payload name and the underscore-stripped slot
name. -/
def claimFallbackMatch (tyName fieldName : String) : Bool :=
  containsSub (fieldNameClean fieldName) (claimNameClean tyName) ||
    containsSub (claimNameClean tyName) (fieldNameClean fieldName)

/-- Encoding as the claim describes it: exact type match first, then the
claim's trailing-suffix-stripped name similarity, else `UnmappablePayload`. -/
def claimEncode (shape : ReqShape) (obj : PyObj) : Except Unit PopulatedReq :=
  match shape.find? (fun f => typeMatches f.ty obj) with
  | some f => .ok (setSlot (emptyRequest shape) f.fieldName obj)
  | none =>
    match shape.find? (fun f => claimFallbackMatch obj.tyName f.fieldName) with
    | some f => .ok (setSlot (emptyRequest shape) f.fieldName obj)
    | none => .error ()

/-- The claim's fallback with its cleaning amended to what line 527
performs: every occurrence of `"type"` removed (not only a trailing
suffix), i.e. substring containment in either direction between
`objNameClean` and the underscore-stripped slot name. -/
def amendedFallbackMatch (tyName fieldName : String) : Bool :=
  containsSub (fieldNameClean fieldName) (objNameClean tyName) ||
    containsSub (objNameClean tyName) (fieldNameClean fieldName)

/-- Encoding as the amended claim describes it: exact type match first,
then the replace-all name similarity, else `UnmappablePayload`. -/
def amendedClaimEncode (shape : ReqShape) (obj : PyObj) : Except Unit PopulatedReq :=
  match shape.find? (fun f => typeMatches f.ty obj) with
  | some f => .ok (setSlot (emptyRequest shape) f.fieldName obj)
  | none =>
    match shape.find? (fun f => amendedFallbackMatch obj.tyName f.fieldName) with
    | some f => .ok (setSlot (emptyRequest shape) f.fieldName obj)
    | none => .error ()

/-- Modelled from the spec: the xsdata serializer and parser live outside
this repository.  Per §3/§4.4-4.5 the envelope is one wire container whose
named slots carry the payloads, so serializing a populated request envelope
and parsing the resulting document recovers, slot by slot, the objects that
were set (an empty slot parses as absent). -/
def roundTripDocument (doc : PopulatedReq) : Envelope :=
  doc.map fun p =>
    ⟨p.1, match p.2 with | none => SlotVal.vNone | some o => SlotVal.scalar o⟩

/-! ## Bounded stream view

`partial_stream.py`, class `PartialStream` (named `BStream` here).  The
wrapped source is modelled as an in-memory seekable byte stream in the
style of `io.BytesIO`: a byte list plus a non-negative position; seeking
past the end is legal, seeking to a negative absolute position raises.
Reads are instrumented with the list of absolute source positions they
consume, which is what the range invariant of the claim talks about. -/

/-- The source stream: bytes and current absolute position. -/
structure SrcState where
  data : List Nat
  pos : Nat
deriving DecidableEq, Repr

/-- `src.read(n)`: the bytes from `pos`, at most `n`, advancing `pos` by
the number actually read; also returns the absolute positions consumed. -/
def srcRead (s : SrcState) (n : Nat) : SrcState × List Nat × List Nat :=
  let bytes := (s.data.drop s.pos).take n
  (⟨s.data, s.pos + bytes.length⟩, bytes,
    (List.range bytes.length).map fun i => s.pos + i)

/-- `src.seek(t)` to an absolute target: a negative target raises
(`none`); any non-negative target is accepted. -/
def srcSeekAbs (s : SrcState) (t : Int) : Option SrcState :=
  if t < 0 then none else some ⟨s.data, t.toNat⟩

/-- The bounded stream view: source, `start` position captured at
construction (`src.tell()` then, line 18), and `max_bytes`. -/
structure BStream where
  src : SrcState
  start : Nat
  maxBytes : Nat
deriving DecidableEq, Repr

/-- `PartialStream(src, max_bytes)` (lines 9-19): capture the source's
current position as `start`. -/
def mkBStream (src : SrcState) (maxBytes : Nat) : BStream :=
  ⟨src, src.pos, maxBytes⟩

/-- `tell()` (lines 36-38): source position minus `start`, which can be
negative after a backwards seek. -/
def btell (p : BStream) : Int := (p.src.pos : Int) - p.start

/-- `_get_length()` (lines 61-74) for a seekable in-memory source: probe
the source length with a seek-to-end-and-restore (pure here) and return
`min(max_bytes, max(0, src_length - start))`. -/
def bGetLength (p : BStream) : Nat :=
  min p.maxBytes (p.src.data.length - p.start)

/-- The three `whence` modes of `seek`. -/
inductive BWhence
  | seekSet
  | seekCur
  | seekEnd
deriving DecidableEq, Repr

/-- `seek(offset, whence)` (lines 40-59): SEEK_SET targets
`start + offset` absolutely; SEEK_CUR delegates (source position plus
offset); SEEK_END targets `start + effective_length + offset`.  No mode
clamps the offset, so targets below `start` are accepted by the source as
long as they are non-negative. -/
def bseek (p : BStream) (offset : Int) (whence : BWhence) : Option BStream :=
  match whence with
  | .seekSet => (srcSeekAbs p.src ((p.start : Int) + offset)).map fun s => {p with src := s}
  | .seekCur => (srcSeekAbs p.src ((p.src.pos : Int) + offset)).map fun s => {p with src := s}
  | .seekEnd =>
    (srcSeekAbs p.src ((p.start : Int) + bGetLength p + offset)).map fun s => {p with src := s}

/-- The size clamp shared by `read` and `readline` (lines 89-96, 108-112):
`size = -1` (here `none`) means the remaining length `len - t`, a given
size is clamped to the remaining length. -/
def clampSize (len t : Int) (size : Option Nat) : Int :=
  match size with
  | none => len - t
  | some n => min (n : Int) (len - t)

/-- `read(size)` (lines 76-101): empty once `tell() >= length`; then one
delegated `src.read` of the clamped size.  Returns the new state, the
bytes, and the absolute positions consumed. -/
def bread (p : BStream) (size : Option Nat) : BStream × List Nat × List Nat :=
  if btell p ≥ (bGetLength p : Int) then (p, [], [])
  else if clampSize (bGetLength p) (btell p) size ≤ 0 then (p, [], [])
  else
    let r := srcRead p.src (clampSize (bGetLength p) (btell p) size).toNat
    ({p with src := r.1}, r.2.1, r.2.2)

/-- The byte-by-byte loop of `readline` (lines 118-127): up to `n` single
byte `src.read(1)` calls, stopping at end-of-source or after a `'\n'`
(byte 10). -/
def breadlineLoop : Nat → SrcState → SrcState × List Nat × List Nat
  | 0, s => (s, [], [])
  | n + 1, s =>
    let r := srcRead s 1
    match r.2.1 with
    | [] => (r.1, [], r.2.2)
    | ch :: _ =>
      if ch = 10 then (r.1, [ch], r.2.2)
      else
        let r2 := breadlineLoop n r.1
        (r2.1, ch :: r2.2.1, r.2.2 ++ r2.2.2)

/-- `readline(size)` (lines 103-127): the same exhaustion/clamp logic as
`read`, then the byte-by-byte loop. -/
def breadline (p : BStream) (size : Option Nat) : BStream × List Nat × List Nat :=
  if btell p ≥ (bGetLength p : Int) then (p, [], [])
  else if clampSize (bGetLength p) (btell p) size ≤ 0 then (p, [], [])
  else
    let r := breadlineLoop (clampSize (bGetLength p) (btell p) size).toNat p.src
    ({p with src := r.1}, r.2.1, r.2.2)

/-- One operation of the claim's traces: seek, read, or readline
(`none` size means Python's `-1`). -/
inductive BOp
  | opSeek (offset : Int) (whence : BWhence)
  | opRead (size : Option Nat)
  | opReadline (size : Option Nat)
deriving DecidableEq, Repr

/-- One operation applied to the view: the next state and the absolute
source positions the operation consumed; `none` when a seek raised. -/
def applyBOp (op : BOp) (p : BStream) : Option (BStream × List Nat) :=
  match op with
  | .opSeek off w => (bseek p off w).map fun p' => (p', [])
  | .opRead sz => some ((bread p sz).1, (bread p sz).2.2)
  | .opReadline sz => some ((breadline p sz).1, (breadline p sz).2.2)

/-- Run a trace of operations, accumulating every absolute source
position consumed by a read; `none` when a seek raised. -/
def runBOps : List BOp → BStream → Option (BStream × List Nat)
  | [], p => some (p, [])
  | op :: rest, p =>
    match applyBOp op p with
    | none => none
    | some (p', ps) =>
      (runBOps rest p').map fun r => (r.1, ps ++ r.2)

/-! ## Capability gate and deployment classification

`tableau_api_client.py`: `_TABLEAU_ONLINE_REGEX` (lines 39-42),
`_is_online` (lines 179-187), `_check_endpoint_availability`
(lines 189-211). -/

/-- `re.search` of the anchored pattern
`(?:\.online)?\.tableau\.com$` with `re.IGNORECASE`: the hostname,
case-folded, ends with `".online.tableau.com"` or with `".tableau.com"`
(the pattern's own literals are lower-case). -/
def tableauOnlineSearch (h : String) : Bool :=
  ".online.tableau.com".data.isSuffixOf (lowerL h.data) ||
    ".tableau.com".data.isSuffixOf (lowerL h.data)

/-- The state `_check_endpoint_availability` reads: the parsed hostname,
the negotiated version, and the two metadata tables. -/
structure GateContext where
  hostname : String
  apiVersion : Int × Int
  meta : EndpointMeta
deriving DecidableEq, Repr

/-- `_is_online` (lines 179-187): false for a missing/empty hostname, else
the regex search. -/
def isOnline (ctx : GateContext) : Bool :=
  if ctx.hostname = "" then false else tableauOnlineSearch ctx.hostname

/-- The gate's failure kinds: `TableauApiVersionException` and
`TableauOnlineNotSupportedException`. -/
inductive GateError
  | versionTooOld
  | deploymentNotSupported
deriving DecidableEq, Repr

/-- `_check_endpoint_availability` (lines 189-211) for an already resolved
key: first the minimum-version table (`required_version > self.api_version`
raises), then the on-premise-only list combined with `_is_online()`. -/
def checkEndpointAvailability (ctx : GateContext) (key : String) : Except GateError Unit :=
  if (match ctx.meta.minVersionForEndpoints.lookup key with
      | some req => pyTupleLt ctx.apiVersion req
      | none => false) then
    .error .versionTooOld
  else if ctx.meta.onPremiseOnlyEndpoints.contains key && isOnline ctx then
    .error .deploymentNotSupported
  else
    .ok ()

/-- Modelled from the spec: the gated operations themselves live in the
sub-client modules, which are not part of the analysed sources.  Per §4.2
and §7 a gated operation runs the availability check and only then invokes
the transport collaborator; the second component counts transport
invocations. -/
def invokeGated (ctx : GateContext) (key : String) : Except GateError Unit × Nat :=
  match checkEndpointAvailability ctx key with
  | .error e => (.error e, 0)
  | .ok _ => (.ok (), 1)

/-! ## Auxiliary instances -/

instance {ε α} [DecidableEq ε] [DecidableEq α] : DecidableEq (Except ε α) := fun a b =>
  match a, b with
  | .error e, .error e' => if h : e = e' then .isTrue (by rw [h]) else .isFalse (by simp [h])
  | .error _, .ok _ => .isFalse (by simp)
  | .ok _, .error _ => .isFalse (by simp)
  | .ok v, .ok v' => if h : v = v' then .isTrue (by rw [h]) else .isFalse (by simp [h])

/-! ## Theorems -/

/-- C1 counterexample: the requested version 2.30 lies between the minimum
2.0 and the maximum 3.23 in the lexicographic order, yet construction
negotiates 3.23, not 2.30: the in-range clause of the claim fails on the
code, which compares components separately. -/
theorem c1_counterexample :
    pyTupleLe minVersion (2, 30) = true ∧ pyTupleLe (2, 30) maxVersion = true ∧
      negotiateVersion (2, 30) = .ok maxVersion ∧ (maxVersion ≠ ((2 : Int), (30 : Int))) := by
  decide

/-- C1 (amended): for every requested version at or above the minimum,
negotiation keeps the version exactly when major ≤ 3 and minor ≤ 23 hold
componentwise; any other such version — including every version
lexicographically above the maximum — negotiates exactly the maximum 3.23,
and the negotiated version is never lexicographically above the maximum. -/
theorem c1_amended (v : Int × Int) (h : pyTupleLt v minVersion = false) :
    negotiateVersion v = .ok (if v.1 ≤ 3 ∧ v.2 ≤ 23 then v else maxVersion) ∧
    (∀ w, negotiateVersion v = .ok w → pyTupleLt maxVersion w = false) ∧
    (pyTupleLt maxVersion v = true → negotiateVersion v = .ok maxVersion) := by
  have hv : ¬ (v.1 < 2 ∨ (v.1 = 2 ∧ v.2 < 0)) := by
    simpa [pyTupleLt, minVersion] using h
  unfold negotiateVersion
  simp only [h, Bool.false_eq_true, if_false, maxVersion]
  by_cases hc : v.1 ≤ 3 ∧ v.2 ≤ 23
  · simp only [if_pos hc]
    have hb : (decide (v.1 ≤ 3) && decide (v.2 ≤ 23)) = true := by
      simp [hc.1, hc.2]
    simp only [hb, if_pos]
    refine ⟨trivial, ?_, ?_⟩
    · intro w hw
      cases hw
      simp [pyTupleLt]
      omega
    · intro hlt
      exfalso
      simp [pyTupleLt] at hlt
      omega
  · simp only [if_neg hc]
    have hb : (decide (v.1 ≤ 3) && decide (v.2 ≤ 23)) = false := by
      rcases not_and_or.mp hc with h1 | h2
      · simp [h1]
      · simp [h2]
    simp only [hb, Bool.false_eq_true, if_false]
    refine ⟨trivial, ?_, fun _ => trivial⟩
    intro w hw
    cases hw
    decide

/-- C1 witness: the amended negotiation theorem evaluated at the
componentwise in-range version 3.5. -/
theorem c1_witness :
    pyTupleLt ((3 : Int), (5 : Int)) minVersion = false ∧
      negotiateVersion (3, 5) = .ok (if (3 : Int) ≤ 3 ∧ (5 : Int) ≤ 23 then ((3 : Int), (5 : Int)) else maxVersion) :=
  ⟨by decide, (c1_amended (3, 5) (by decide)).1⟩

/-- C9: constructing the client with a requested version lexicographically
below the configured minimum 2.0 fails with a `ValueError` and produces no
client state at all. -/
theorem c9_low_version_fails (b : String) (v : Int × Int)
    (hb : b ≠ "") (hv : pyTupleLt v minVersion = true) :
    initClient b v = .error .badVersion := by
  unfold initClient negotiateVersion
  rw [if_neg hb]
  simp [hv]

/-- C9 witness: construction at version 1.9 with a non-empty base URI. -/
theorem c9_witness : initClient "myserver.com" (1, 9) = .error .badVersion :=
  c9_low_version_fails "myserver.com" (1, 9) (by decide) (by decide)

/-- C2 counterexample: for a registry whose only marker is one
on-premise-only flag (no minimum-version markers anywhere), running the
metadata initialization twice duplicates the on-premise-only collection,
so the second run is not a no-op. -/
theorem c2_counterexample :
    initEndpointMetadata ⟨[⟨"do_stuff", none, true⟩], []⟩
        (initEndpointMetadata ⟨[⟨"do_stuff", none, true⟩], []⟩ emptyMeta) ≠
      initEndpointMetadata ⟨[⟨"do_stuff", none, true⟩], []⟩ emptyMeta := by
  decide

/-- C2 (amended): metadata initialization is idempotent provided the scan
produces at least one minimum-version entry (the dict the guard of line 47
inspects is then non-empty); under that proviso every call after the first
successful build is a no-op. -/
theorem c2_amended (reg : RegistrySnapshot) (h : scannedMinMap reg ≠ []) :
    initEndpointMetadata reg (initEndpointMetadata reg emptyMeta) =
        initEndpointMetadata reg emptyMeta ∧
      (∀ st : EndpointMeta, st.minVersionForEndpoints ≠ [] →
        initEndpointMetadata reg st = st) := by
  constructor
  · have h1 : initEndpointMetadata reg emptyMeta =
        ⟨scannedMinMap reg, scannedOnPrem reg⟩ := by
      unfold initEndpointMetadata emptyMeta
      simp
    rw [h1]
    unfold initEndpointMetadata
    simp [h]
  · intro st hst
    unfold initEndpointMetadata
    simp [hst]

/-- C2 witness: the amended idempotence theorem at a registry carrying one
minimum-version marker. -/
theorem c2_witness :
    scannedMinMap ⟨[⟨"query_sites", some (2, 3), false⟩], []⟩ ≠ [] ∧
      initEndpointMetadata ⟨[⟨"query_sites", some (2, 3), false⟩], []⟩
          (initEndpointMetadata ⟨[⟨"query_sites", some (2, 3), false⟩], []⟩ emptyMeta) =
        initEndpointMetadata ⟨[⟨"query_sites", some (2, 3), false⟩], []⟩ emptyMeta :=
  ⟨by decide, (c2_amended ⟨[⟨"query_sites", some (2, 3), false⟩], []⟩ (by decide)).1⟩

theorem firstMatchInSlot_eq_none {t : String} {v : SlotVal}
    (h : ∀ o ∈ slotObjs v, o.tyName ≠ t) : firstMatchInSlot t v = none := by
  cases v with
  | vNone => rfl
  | scalar o =>
    have := h o (by simp [slotObjs])
    simp [firstMatchInSlot, this]
  | coll os =>
    simp only [firstMatchInSlot, List.find?_eq_none, decide_eq_true_eq]
    exact fun o ho => h o (by simpa [slotObjs] using ho)

theorem scanOne_eq_none {t : String} : ∀ {env : Envelope},
    (∀ o ∈ envObjs env, o.tyName ≠ t) → scanOne t env = none := by
  intro env
  induction env with
  | nil => intro _; rfl
  | cons f rest ih =>
    intro h
    have hf : firstMatchInSlot t f.val = none :=
      firstMatchInSlot_eq_none fun o ho => h o (by simp [envObjs, ho])
    have hrest : ∀ o ∈ envObjs rest, o.tyName ≠ t := fun o ho =>
      h o (by simp [envObjs] at ho ⊢; exact Or.inr ho)
    simp [scanOne, hf, ih hrest]

theorem stepTwo_no_match {t1 t2 : String} {r : Option PyObj × Option PyObj} {o : PyObj}
    (h1 : o.tyName ≠ t1) (h2 : o.tyName ≠ t2) : stepTwo t1 t2 r o = r := by
  simp [stepTwo, h1, h2]

theorem stepTwoSlot_no_match {t1 t2 : String} {r : Option PyObj × Option PyObj} {v : SlotVal}
    (h : ∀ o ∈ slotObjs v, o.tyName ≠ t1 ∧ o.tyName ≠ t2) :
    stepTwoSlot t1 t2 r v = r := by
  cases v with
  | vNone => rfl
  | scalar o =>
    have := h o (by simp [slotObjs])
    exact stepTwo_no_match this.1 this.2
  | coll os =>
    simp only [stepTwoSlot]
    induction os generalizing r with
    | nil => rfl
    | cons o os ih =>
      have ho := h o (by simp [slotObjs])
      rw [List.foldl_cons, stepTwo_no_match ho.1 ho.2]
      exact ih fun o' ho' => h o' (by simp [slotObjs] at ho' ⊢; exact Or.inr ho')

theorem scanTwo_no_match {t1 t2 : String} : ∀ {env : Envelope},
    (∀ o ∈ envObjs env, o.tyName ≠ t1 ∧ o.tyName ≠ t2) →
    scanTwo t1 t2 (none, none) env = (none, none) := by
  intro env
  induction env with
  | nil => intro _; rfl
  | cons f rest ih =>
    intro h
    have hf : stepTwoSlot t1 t2 (none, none) f.val = (none, none) :=
      stepTwoSlot_no_match fun o ho => h o (by simp [envObjs, ho])
    simp only [scanTwo, hf]
    simp only [Option.isSome_none, Bool.false_eq_true, false_and, and_false, if_false]
    exact ih fun o ho => h o (by simp [envObjs] at ho ⊢; exact Or.inr ho)

/-- C3 counterexample: on content that cannot be parsed, the two-object
decode returns `(None, None)` normally instead of raising a parse error,
refuting the claim that both decode operations raise. -/
theorem c3_counterexample :
    getResponseAsObjects none "WorkbookType" "UserType" = .ok (none, none) := rfl

/-- C3 (amended): the single-object decode raises on unparsable content
and returns absent when parsing succeeds but no slot holds the requested
type; the two-object decode never raises, returning `(None, None)` both on
unparsable content and on absence. -/
theorem c3_amended :
    (∀ t, getResponseAsObject none t = .error ()) ∧
    (∀ (env : Envelope) t, (∀ o ∈ envObjs env, o.tyName ≠ t) →
      getResponseAsObject (some env) t = .ok none) ∧
    (∀ t1 t2, getResponseAsObjects none t1 t2 = .ok (none, none)) ∧
    (∀ (env : Envelope) t1 t2,
      (∀ o ∈ envObjs env, o.tyName ≠ t1 ∧ o.tyName ≠ t2) →
      getResponseAsObjects (some env) t1 t2 = .ok (none, none)) := by
  refine ⟨fun _ => rfl, ?_, fun _ _ => rfl, ?_⟩
  · intro env t h
    simp [getResponseAsObject, scanOne_eq_none h]
  · intro env t1 t2 h
    simp [getResponseAsObjects, scanTwo_no_match h]

/-- C3 witness: the amended theorem's absent case at a one-slot envelope
holding only a workbook object. -/
theorem c3_witness :
    (∀ o ∈ envObjs [⟨"workbook", SlotVal.scalar ⟨"WorkbookType", 0⟩⟩], o.tyName ≠ "UserType") ∧
      getResponseAsObject (some [⟨"workbook", SlotVal.scalar ⟨"WorkbookType", 0⟩⟩]) "UserType" =
        .ok none :=
  ⟨by decide, c3_amended.2.1 [⟨"workbook", SlotVal.scalar ⟨"WorkbookType", 0⟩⟩] "UserType" (by decide)⟩

theorem stepTwo_both_some {t1 t2 : String} {r : Option PyObj × Option PyObj} {o : PyObj}
    (h1 : r.1.isSome) (h2 : r.2.isSome) : stepTwo t1 t2 r o = r := by
  obtain ⟨a, ha⟩ := Option.isSome_iff_exists.mp h1
  obtain ⟨b, hb⟩ := Option.isSome_iff_exists.mp h2
  simp [stepTwo, ha, hb]

theorem foldl_stepTwo_both_some {t1 t2 : String} :
    ∀ (l : List PyObj) {r : Option PyObj × Option PyObj},
      r.1.isSome → r.2.isSome → l.foldl (stepTwo t1 t2) r = r := by
  intro l
  induction l with
  | nil => intro r _ _; rfl
  | cons o l ih =>
    intro r h1 h2
    rw [List.foldl_cons, stepTwo_both_some h1 h2, ih h1 h2]

theorem stepTwoSlot_eq_foldl {t1 t2 : String} {r : Option PyObj × Option PyObj}
    (v : SlotVal) : stepTwoSlot t1 t2 r v = (slotObjs v).foldl (stepTwo t1 t2) r := by
  cases v <;> rfl

theorem scanTwo_eq_foldl {t1 t2 : String} :
    ∀ (env : Envelope) (r : Option PyObj × Option PyObj),
      scanTwo t1 t2 r env = (envObjs env).foldl (stepTwo t1 t2) r := by
  intro env
  induction env with
  | nil => intro r; rfl
  | cons f rest ih =>
    intro r
    show (let r' := stepTwoSlot t1 t2 r f.val
      if r'.1.isSome ∧ r'.2.isSome then r' else scanTwo t1 t2 r' rest) = _
    simp only []
    have henv : envObjs (f :: rest) = slotObjs f.val ++ envObjs rest := by
      simp [envObjs]
    rw [henv, List.foldl_append, ← stepTwoSlot_eq_foldl]
    by_cases hb : (stepTwoSlot t1 t2 r f.val).1.isSome ∧ (stepTwoSlot t1 t2 r f.val).2.isSome
    · rw [if_pos hb, foldl_stepTwo_both_some _ hb.1 hb.2]
    · rw [if_neg hb, ih]

theorem foldl_stepTwo_spec {t1 t2 : String} (hne : t1 ≠ t2) {x y : PyObj} :
    ∀ (l : List PyObj) (r : Option PyObj × Option PyObj),
      ((r.1 = none ∧ l.filter (fun o => o.tyName = t1) = [x]) ∨
        (r.1 = some x ∧ l.filter (fun o => o.tyName = t1) = [])) →
      ((r.2 = none ∧ l.filter (fun o => o.tyName = t2) = [y]) ∨
        (r.2 = some y ∧ l.filter (fun o => o.tyName = t2) = [])) →
      l.foldl (stepTwo t1 t2) r = (some x, some y) := by
  intro l
  induction l with
  | nil =>
    intro r h1 h2
    rcases h1 with ⟨_, hf⟩ | ⟨hr1, _⟩
    · simp at hf
    · rcases h2 with ⟨_, hf⟩ | ⟨hr2, _⟩
      · simp at hf
      · obtain ⟨r1, r2⟩ := r
        simp only at hr1 hr2
        rw [List.foldl_nil, hr1, hr2]
  | cons o l ih =>
    intro r h1 h2
    rw [List.foldl_cons]
    by_cases ho1 : o.tyName = t1
    · have ho2 : o.tyName ≠ t2 := fun hh => hne (ho1 ▸ hh ▸ rfl)
      rcases h1 with ⟨hr1, hf⟩ | ⟨hr1, hf⟩
      · rw [List.filter_cons_of_pos (by simp [ho1])] at hf
        have hox : o = x := by
          simpa using congrArg (·.head?) hf
        have hfl : l.filter (fun o => o.tyName = t1) = [] := by
          simpa using congrArg (·.tail) hf
        subst hox
        have hstep : stepTwo t1 t2 r o = (some o, r.2) := by
          simp [stepTwo, hr1, ho1]
        rw [hstep]
        refine ih _ (Or.inr ⟨rfl, hfl⟩) ?_
        have hf2 : (o :: l).filter (fun o => o.tyName = t2) =
            l.filter (fun o => o.tyName = t2) := by
          rw [List.filter_cons_of_neg (by simp [ho2])]
        rcases h2 with ⟨hr2, hg⟩ | ⟨hr2, hg⟩
        · exact Or.inl ⟨hr2, by rw [← hf2]; exact hg⟩
        · exact Or.inr ⟨hr2, by rw [← hf2]; exact hg⟩
      · rw [List.filter_cons_of_pos (by simp [ho1])] at hf
        exact absurd hf (by simp)
    · have hf1 : (o :: l).filter (fun o => o.tyName = t1) =
          l.filter (fun o => o.tyName = t1) := by
        rw [List.filter_cons_of_neg (by simp [ho1])]
      by_cases ho2 : o.tyName = t2
      · rcases h2 with ⟨hr2, hf⟩ | ⟨hr2, hf⟩
        · rw [List.filter_cons_of_pos (by simp [ho2])] at hf
          have hoy : o = y := by
            simpa using congrArg (·.head?) hf
          have hfl : l.filter (fun o => o.tyName = t2) = [] := by
            simpa using congrArg (·.tail) hf
          subst hoy
          have hstep : stepTwo t1 t2 r o = (r.1, some o) := by
            simp [stepTwo, ho1, hr2, ho2, Ne.symm hne]
          rw [hstep]
          refine ih _ ?_ (Or.inr ⟨rfl, hfl⟩)
          rcases h1 with ⟨hr1, hg⟩ | ⟨hr1, hg⟩
          · exact Or.inl ⟨hr1, by rw [← hf1]; exact hg⟩
          · exact Or.inr ⟨hr1, by rw [← hf1]; exact hg⟩
        · rw [List.filter_cons_of_pos (by simp [ho2])] at hf
          exact absurd hf (by simp)
      · have hf2 : (o :: l).filter (fun o => o.tyName = t2) =
            l.filter (fun o => o.tyName = t2) := by
          rw [List.filter_cons_of_neg (by simp [ho2])]
        rw [stepTwo_no_match ho1 ho2]
        refine ih _ ?_ ?_
        · rcases h1 with ⟨hr1, hg⟩ | ⟨hr1, hg⟩
          · exact Or.inl ⟨hr1, by rw [← hf1]; exact hg⟩
          · exact Or.inr ⟨hr1, by rw [← hf1]; exact hg⟩
        · rcases h2 with ⟨hr2, hg⟩ | ⟨hr2, hg⟩
          · exact Or.inl ⟨hr2, by rw [← hf2]; exact hg⟩
          · exact Or.inr ⟨hr2, by rw [← hf2]; exact hg⟩

/-- C7: a parsed document holding exactly one TypeX object and one TypeY
object decodes under the two-object extraction to exactly that pair, each
matched to its own type, wherever the two objects sit in the field order;
each object is assigned to at most the one target its type satisfies. -/
theorem c7_extract_two (env : Envelope) (t1 t2 : String) (x y : PyObj)
    (hne : t1 ≠ t2)
    (hx : (envObjs env).filter (fun o => o.tyName = t1) = [x])
    (hy : (envObjs env).filter (fun o => o.tyName = t2) = [y]) :
    getResponseAsObjects (some env) t1 t2 = .ok (some x, some y) := by
  simp only [getResponseAsObjects]
  rw [scanTwo_eq_foldl]
  rw [foldl_stepTwo_spec hne (envObjs env) (none, none)
    (Or.inl ⟨rfl, hx⟩) (Or.inl ⟨rfl, hy⟩)]

theorem removeSubAux_singleton (c : Char) : ∀ (n : Nat) (l : List Char),
    l.length ≤ n → removeSubAux [c] n l = l.filter (fun x => x ≠ c) := by
  intro n
  induction n with
  | zero =>
    intro l h
    rw [Nat.le_zero, List.length_eq_zero] at h
    subst h
    rfl
  | succ n ih =>
    intro l h
    cases l with
    | nil => rfl
    | cons a rest =>
      rw [removeSubAux]
      by_cases hca : c = a
      · have hpre : [c].isPrefixOf (a :: rest) = true := by
          simp [List.isPrefixOf, hca]
        rw [if_pos ⟨by simp, hpre⟩]
        simp only [List.length_cons, List.length_nil, List.drop_succ_cons, List.drop_zero]
        rw [ih rest (by simpa using h), List.filter_cons_of_neg (by simp [hca])]
      · have hac : ¬ a = c := fun hh => hca hh.symm
        have hpre : [c].isPrefixOf (a :: rest) = false := by
          simp [List.isPrefixOf, hca, hac]
        rw [if_neg (by simp [hpre])]
        rw [ih rest (by simpa using h), List.filter_cons_of_pos (by simp [hac])]

theorem removeSub_singleton (c : Char) (l : List Char) :
    removeSub [c] l = l.filter (fun x => x ≠ c) :=
  removeSubAux_singleton c l.length l le_rfl

theorem removeSub_singleton_idem (c : Char) (l : List Char) :
    removeSub [c] (removeSub [c] l) = removeSub [c] l := by
  simp [removeSub_singleton, List.filter_filter]

theorem isPrefixOf_self : ∀ l : List Char, l.isPrefixOf l = true := by
  intro l
  induction l with
  | nil => rfl
  | cons a rest ih => simp [List.isPrefixOf, ih]

theorem containsSub_self (l : List Char) : containsSub l l = true := by
  cases l with
  | nil => rfl
  | cons a rest =>
    show ((a :: rest).isPrefixOf (a :: rest) || containsSub rest (a :: rest)) = true
    rw [isPrefixOf_self]
    rfl

theorem fallbackMatch_eq_amended (tyName fieldName : String) :
    fallbackMatch tyName fieldName = amendedFallbackMatch tyName fieldName := by
  unfold fallbackMatch amendedFallbackMatch
  cases hA : containsSub (fieldNameClean fieldName) (objNameClean tyName) with
  | true => simp [hA]
  | false =>
    cases hB : containsSub (objNameClean tyName) (fieldNameClean fieldName) with
    | true => simp [hA, hB]
    | false =>
      have hC : lowerL fieldName.data ≠ objNameClean tyName := by
        intro hC
        have hfc : fieldNameClean fieldName = objNameClean tyName := by
          unfold fieldNameClean
          rw [hC]
          unfold objNameClean
          have hu : ("_".data : List Char) = ['_'] := rfl
          rw [hu, removeSub_singleton_idem]
        rw [hfc, containsSub_self] at hA
        exact absurd hA (by simp)
      simp [hA, hB, hC]

/-- C4 counterexample: payload type name `AtypeB` against a lone slot `ab`
with no type match: the code's fallback removes every occurrence of
`"type"` (`atypeb` becomes `ab`) and maps the payload, while the fallback
the claim describes (only a trailing suffix stripped) matches nothing and
would fail with `UnmappablePayload`. -/
theorem c4_counterexample :
    getObjectAsRequestContent [⟨"ab", .named "Zzz"⟩] ⟨"AtypeB", 0⟩ =
        .ok [("ab", some ⟨"AtypeB", 0⟩)] ∧
      claimEncode [⟨"ab", .named "Zzz"⟩] ⟨"AtypeB", 0⟩ = .error () := by
  constructor
  · decide
  · decide

/-- C4 (amended): encoding selects the first slot whose unwrapped declared
type matches the payload's runtime type; otherwise the first slot passing
the case-insensitive, underscore-stripped name similarity in which every
occurrence of `"type"` is removed from the payload type name (not only a
trailing suffix), with substring containment in either direction;
otherwise it fails with `UnmappablePayload`.  The redundant third
disjunct of line 532 is absorbed by the containment test. -/
theorem c4_amended (shape : ReqShape) (obj : PyObj) :
    getObjectAsRequestContent shape obj = amendedClaimEncode shape obj := by
  unfold getObjectAsRequestContent amendedClaimEncode
  have hf : (fun f : ReqField => fallbackMatch obj.tyName f.fieldName) =
      (fun f : ReqField => amendedFallbackMatch obj.tyName f.fieldName) :=
    funext fun f => fallbackMatch_eq_amended obj.tyName f.fieldName
  rw [hf]

/-- C6: with envelope slots A of TypeX and B of TypeY, encoding a TypeX
instance populates slot A and only slot A; decoding the resulting document
for TypeX recovers the instance, and decoding it for TypeY yields absent. -/
theorem c6_oneof_roundtrip (nameA nameB tX tY : String) (x : PyObj)
    (hname : nameA ≠ nameB) (hty : tX ≠ tY) (hx : x.tyName = tX) :
    getObjectAsRequestContent
        [⟨nameA, .optional (.named tX)⟩, ⟨nameB, .optional (.named tY)⟩] x =
      .ok [(nameA, some x), (nameB, none)] ∧
    getResponseAsObject (some (roundTripDocument [(nameA, some x), (nameB, none)])) tX =
      .ok (some x) ∧
    getResponseAsObject (some (roundTripDocument [(nameA, some x), (nameB, none)])) tY =
      .ok none := by
  refine ⟨?_, ?_, ?_⟩
  · simp [getObjectAsRequestContent, List.find?_cons, typeMatches, unwrapFieldTy, hx,
      setSlot, emptyRequest, Ne.symm hname]
  · simp [getResponseAsObject, roundTripDocument, scanOne, firstMatchInSlot, hx]
  · simp [getResponseAsObject, roundTripDocument, scanOne, firstMatchInSlot, hx, hty]

/-- C6 witness: the round-trip theorem at slots workbook/user and a
concrete workbook payload. -/
theorem c6_witness :
    ("workbook" : String) ≠ "user" ∧ ("WorkbookType" : String) ≠ "UserType" ∧
      (⟨"WorkbookType", 7⟩ : PyObj).tyName = "WorkbookType" ∧
      (getObjectAsRequestContent
          [⟨"workbook", .optional (.named "WorkbookType")⟩,
            ⟨"user", .optional (.named "UserType")⟩] ⟨"WorkbookType", 7⟩ =
        .ok [("workbook", some ⟨"WorkbookType", 7⟩), ("user", none)] ∧
      getResponseAsObject
          (some (roundTripDocument [("workbook", some ⟨"WorkbookType", 7⟩), ("user", none)]))
          "WorkbookType" = .ok (some ⟨"WorkbookType", 7⟩) ∧
      getResponseAsObject
          (some (roundTripDocument [("workbook", some ⟨"WorkbookType", 7⟩), ("user", none)]))
          "UserType" = .ok none) :=
  ⟨by decide, by decide, rfl,
    c6_oneof_roundtrip "workbook" "user" "WorkbookType" "UserType" ⟨"WorkbookType", 7⟩
      (by decide) (by decide) rfl⟩

/-- C7 witness: the extraction theorem on a document carrying the UserType
object before the WorkbookType object. -/
theorem c7_witness :
    ("WorkbookType" : String) ≠ "UserType" ∧
      (envObjs [⟨"user", SlotVal.scalar ⟨"UserType", 1⟩⟩,
        ⟨"workbooks", SlotVal.coll [⟨"WorkbookType", 2⟩]⟩]).filter
          (fun o => o.tyName = "WorkbookType") = [⟨"WorkbookType", 2⟩] ∧
      (envObjs [⟨"user", SlotVal.scalar ⟨"UserType", 1⟩⟩,
        ⟨"workbooks", SlotVal.coll [⟨"WorkbookType", 2⟩]⟩]).filter
          (fun o => o.tyName = "UserType") = [⟨"UserType", 1⟩] ∧
      getResponseAsObjects
          (some [⟨"user", SlotVal.scalar ⟨"UserType", 1⟩⟩,
            ⟨"workbooks", SlotVal.coll [⟨"WorkbookType", 2⟩]⟩])
          "WorkbookType" "UserType" =
        .ok (some ⟨"WorkbookType", 2⟩, some ⟨"UserType", 1⟩) :=
  ⟨by decide, by decide, by decide,
    c7_extract_two
      [⟨"user", SlotVal.scalar ⟨"UserType", 1⟩⟩,
        ⟨"workbooks", SlotVal.coll [⟨"WorkbookType", 2⟩]⟩]
      "WorkbookType" "UserType" ⟨"WorkbookType", 2⟩ ⟨"UserType", 1⟩
      (by decide) (by decide) (by decide)⟩

theorem srcRead_pos_bounds {s : SrcState} {n : Nat} :
    ∀ q ∈ (srcRead s n).2.2, s.pos ≤ q ∧ q < s.pos + n ∧ q < s.data.length := by
  intro q hq
  simp only [srcRead, List.mem_map, List.mem_range] at hq
  obtain ⟨i, hi, rfl⟩ := hq
  rw [List.length_take, List.length_drop] at hi
  refine ⟨Nat.le_add_right _ _, ?_, ?_⟩ <;> omega

theorem srcRead_data {s : SrcState} {n : Nat} : (srcRead s n).1.data = s.data := rfl

theorem srcRead_len {s : SrcState} {n : Nat} :
    (srcRead s n).2.1.length ≤ n := by
  simp only [srcRead, List.length_take, List.length_drop]
  omega

theorem bGetLength_le (p : BStream) : bGetLength p ≤ p.maxBytes :=
  Nat.min_le_left _ _

theorem clampSize_le (len t : Int) (size : Option Nat) :
    clampSize len t size ≤ len - t := by
  cases size with
  | none => exact le_refl _
  | some n => exact min_le_right _ _

theorem bread_pos_bounds {p : BStream} {size : Option Nat} :
    ∀ q ∈ (bread p size).2.2, q < p.start + p.maxBytes ∧ q < p.src.data.length := by
  intro q hq
  unfold bread at hq
  split_ifs at hq with h1 h2
  · simp at hq
  · simp at hq
  · have hb := srcRead_pos_bounds q hq
    have hsznn : (0 : Int) ≤ clampSize (bGetLength p) (btell p) size := by omega
    have hszle : clampSize (bGetLength p) (btell p) size ≤
        (bGetLength p : Int) - btell p := clampSize_le _ _ _
    have htell : btell p = (p.src.pos : Int) - p.start := rfl
    have hlen : (bGetLength p : Int) ≤ (p.maxBytes : Int) := by
      exact_mod_cast bGetLength_le p
    have hq2 : (q : Int) <
        (p.src.pos : Int) + clampSize (bGetLength p) (btell p) size := by
      have h3 : q < p.src.pos + (clampSize (bGetLength p) (btell p) size).toNat :=
        hb.2.1
      have h4 : (q : Int) <
          (p.src.pos : Int) + ((clampSize (bGetLength p) (btell p) size).toNat : Int) := by
        exact_mod_cast h3
      rwa [Int.toNat_of_nonneg hsznn] at h4
    refine ⟨?_, hb.2.2⟩
    have h5 : (q : Int) < (p.start : Int) + p.maxBytes := by omega
    exact_mod_cast h5

theorem bread_preserves {p : BStream} {size : Option Nat} :
    (bread p size).1.start = p.start ∧ (bread p size).1.maxBytes = p.maxBytes ∧
      (bread p size).1.src.data = p.src.data := by
  unfold bread
  split_ifs <;> exact ⟨rfl, rfl, rfl⟩

theorem srcRead_pos_eq {s : SrcState} {n : Nat} :
    (srcRead s n).1.pos = s.pos + (srcRead s n).2.1.length := rfl

theorem breadlineLoop_bounds : ∀ (n : Nat) (s : SrcState),
    (breadlineLoop n s).1.data = s.data ∧
      (∀ q ∈ (breadlineLoop n s).2.2, s.pos ≤ q ∧ q < s.pos + n ∧ q < s.data.length) := by
  intro n
  induction n with
  | zero =>
    intro s
    exact ⟨rfl, by simp [breadlineLoop]⟩
  | succ n ih =>
    intro s
    have hdata1 : (srcRead s 1).1.data = s.data := rfl
    have hpos1 : s.pos ≤ (srcRead s 1).1.pos := by
      rw [srcRead_pos_eq]; omega
    have hpos2 : (srcRead s 1).1.pos ≤ s.pos + 1 := by
      have h2 := srcRead_len (s := s) (n := 1)
      rw [srcRead_pos_eq]; omega
    have hread : ∀ q ∈ (srcRead s 1).2.2,
        s.pos ≤ q ∧ q < s.pos + (n + 1) ∧ q < s.data.length := by
      intro q hq
      have hb := srcRead_pos_bounds q hq
      exact ⟨hb.1, by omega, hb.2.2⟩
    have hunfold : breadlineLoop (n + 1) s =
        (match (srcRead s 1).2.1 with
        | [] => ((srcRead s 1).1, ([] : List Nat), (srcRead s 1).2.2)
        | ch :: _ =>
          if ch = 10 then ((srcRead s 1).1, [ch], (srcRead s 1).2.2)
          else
            ((breadlineLoop n (srcRead s 1).1).1,
              ch :: (breadlineLoop n (srcRead s 1).1).2.1,
              (srcRead s 1).2.2 ++ (breadlineLoop n (srcRead s 1).1).2.2)) := rfl
    rw [hunfold]
    cases hk : (srcRead s 1).2.1 with
    | nil => exact ⟨hdata1, hread⟩
    | cons ch tl =>
      by_cases hch : ch = 10
      · simp only [hch, if_pos rfl]
        exact ⟨hdata1, hread⟩
      · simp only [if_neg hch]
        have hloop := ih (srcRead s 1).1
        refine ⟨by rw [hloop.1, hdata1], ?_⟩
        intro q hq
        rw [List.mem_append] at hq
        rcases hq with hq | hq
        · exact hread q hq
        · have hb := hloop.2 q hq
          rw [hdata1] at hb
          exact ⟨le_trans hpos1 hb.1, by omega, hb.2.2⟩

theorem breadline_pos_bounds {p : BStream} {size : Option Nat} :
    ∀ q ∈ (breadline p size).2.2, q < p.start + p.maxBytes ∧ q < p.src.data.length := by
  intro q hq
  unfold breadline at hq
  split_ifs at hq with h1 h2
  · simp at hq
  · simp at hq
  · have hb := (breadlineLoop_bounds (clampSize (bGetLength p) (btell p) size).toNat p.src).2 q hq
    have hsznn : (0 : Int) ≤ clampSize (bGetLength p) (btell p) size := by omega
    have hszle : clampSize (bGetLength p) (btell p) size ≤
        (bGetLength p : Int) - btell p := clampSize_le _ _ _
    have htell : btell p = (p.src.pos : Int) - p.start := rfl
    have hlen : (bGetLength p : Int) ≤ (p.maxBytes : Int) := by
      exact_mod_cast bGetLength_le p
    have hq2 : (q : Int) <
        (p.src.pos : Int) + clampSize (bGetLength p) (btell p) size := by
      have h3 : q < p.src.pos + (clampSize (bGetLength p) (btell p) size).toNat :=
        hb.2.1
      have h4 : (q : Int) <
          (p.src.pos : Int) + ((clampSize (bGetLength p) (btell p) size).toNat : Int) := by
        exact_mod_cast h3
      rwa [Int.toNat_of_nonneg hsznn] at h4
    refine ⟨?_, hb.2.2⟩
    have h5 : (q : Int) < (p.start : Int) + p.maxBytes := by omega
    exact_mod_cast h5

theorem breadline_preserves {p : BStream} {size : Option Nat} :
    (breadline p size).1.start = p.start ∧ (breadline p size).1.maxBytes = p.maxBytes ∧
      (breadline p size).1.src.data = p.src.data := by
  unfold breadline
  split_ifs
  · exact ⟨rfl, rfl, rfl⟩
  · exact ⟨rfl, rfl, rfl⟩
  · exact ⟨rfl, rfl,
      (breadlineLoop_bounds (clampSize (bGetLength p) (btell p) size).toNat p.src).1⟩

theorem bseek_preserves {p : BStream} {off : Int} {w : BWhence} {p' : BStream}
    (h : bseek p off w = some p') :
    p'.start = p.start ∧ p'.maxBytes = p.maxBytes ∧ p'.src.data = p.src.data := by
  cases w <;>
    · simp only [bseek, srcSeekAbs] at h
      split_ifs at h <;> simp at h
      rw [← h]
      exact ⟨rfl, rfl, rfl⟩

theorem applyBOp_bounds {op : BOp} {p : BStream} {p1 : BStream} {ps : List Nat}
    (h : applyBOp op p = some (p1, ps)) :
    (∀ q ∈ ps, q < p.start + p.maxBytes ∧ q < p.src.data.length) ∧
      p1.start = p.start ∧ p1.maxBytes = p.maxBytes ∧ p1.src.data = p.src.data := by
  cases op with
  | opSeek off w =>
    simp only [applyBOp] at h
    cases hs : bseek p off w with
    | none => rw [hs] at h; simp at h
    | some p2 =>
      rw [hs] at h
      simp at h
      obtain ⟨h1, h2⟩ := h
      subst h2
      rw [← h1]
      exact ⟨by simp, bseek_preserves hs⟩
  | opRead sz =>
    simp only [applyBOp] at h
    obtain ⟨h1, h2⟩ : (bread p sz).1 = p1 ∧ (bread p sz).2.2 = ps := by
      constructor <;> [exact congrArg (fun x => x.1) (Option.some.inj h) ▸ rfl;
        exact congrArg (fun x => x.2) (Option.some.inj h) ▸ rfl]
    subst h1; subst h2
    exact ⟨bread_pos_bounds, bread_preserves⟩
  | opReadline sz =>
    simp only [applyBOp] at h
    obtain ⟨h1, h2⟩ : (breadline p sz).1 = p1 ∧ (breadline p sz).2.2 = ps := by
      constructor <;> [exact congrArg (fun x => x.1) (Option.some.inj h) ▸ rfl;
        exact congrArg (fun x => x.2) (Option.some.inj h) ▸ rfl]
    subst h1; subst h2
    exact ⟨breadline_pos_bounds, breadline_preserves⟩

/-- C5 counterexample: a bounded stream over a six-byte source constructed
at position 3 with bound 2; seeking to relative offset -3 and reading all
consumes absolute positions 0 through 4, of which 0, 1 and 2 lie before
`start = 3`: reads escape the sub-range on the lower side. -/
theorem c5_counterexample :
    runBOps [BOp.opSeek (-3) BWhence.seekSet, BOp.opRead none]
        (mkBStream ⟨[65, 66, 67, 68, 69, 70], 3⟩ 2) =
      some (⟨⟨[65, 66, 67, 68, 69, 70], 5⟩, 3, 2⟩, [0, 1, 2, 3, 4]) ∧
      (mkBStream ⟨[65, 66, 67, 68, 69, 70], 3⟩ 2).start = 3 := by
  decide

/-- C5 (amended): on the read side no operation sequence ever consumes a
source byte at or beyond `start + max_length` (nor beyond the source end),
and every operation preserves the view's start, bound and source data;
bytes before `start` can however be consumed after a seek to a negative
relative position, as the counterexample exhibits. -/
theorem c5_amended : ∀ (ops : List BOp) (p p' : BStream) (log : List Nat),
    runBOps ops p = some (p', log) →
    (∀ q ∈ log, q < p.start + p.maxBytes ∧ q < p.src.data.length) ∧
      p'.start = p.start ∧ p'.maxBytes = p.maxBytes ∧ p'.src.data = p.src.data := by
  intro ops
  induction ops with
  | nil =>
    intro p p' log h
    simp only [runBOps, Option.some.injEq, Prod.mk.injEq] at h
    obtain ⟨h1, h2⟩ := h
    subst h1; subst h2
    exact ⟨by simp, rfl, rfl, rfl⟩
  | cons op rest ih =>
    intro p p' log h
    simp only [runBOps] at h
    cases ha : applyBOp op p with
    | none => rw [ha] at h; simp at h
    | some pr =>
      obtain ⟨p1, ps⟩ := pr
      rw [ha] at h
      dsimp only [] at h
      cases hr : runBOps rest p1 with
      | none =>
        rw [hr] at h
        exact absurd h (by simp)
      | some r =>
        rw [hr] at h
        simp only [Option.map_some', Option.some.injEq, Prod.mk.injEq] at h
        obtain ⟨h1, h2⟩ := h
        have hstep := applyBOp_bounds ha
        have hrec := ih p1 r.1 r.2 hr
        subst h1
        subst h2
        constructor
        · intro q hq
          rw [List.mem_append] at hq
          rcases hq with hq | hq
          · exact hstep.1 q hq
          · have hb := hrec.1 q hq
            rw [hstep.2.1, hstep.2.2.1, hstep.2.2.2] at hb
            exact hb
        · rw [hrec.2.1, hrec.2.2.1, hrec.2.2.2]
          exact hstep.2

theorem isSuffixOf_tableau_of_online {l : List Char}
    (h : ".online.tableau.com".data.isSuffixOf l = true) :
    ".tableau.com".data.isSuffixOf l = true := by
  rw [List.isSuffixOf_iff_suffix] at h ⊢
  have hstep : (".tableau.com".data) <:+ (".online.tableau.com".data) :=
    List.isSuffixOf_iff_suffix.mp (by decide)
  exact hstep.trans h

/-- C10: the hosted-deployment classification is exactly "the lower-cased
hostname ends with `.tableau.com`": the optional `.online` group of the
regex is redundant, the bare hostname `tableau.com` is not hosted (the
literal leading dot is required), and a base URI carrying neither an
`http://` nor an `https://` scheme is rewritten to `https://<uri>` before
parsing. -/
theorem c10_hosted_classification :
    (∀ h : String, tableauOnlineSearch h = ".tableau.com".data.isSuffixOf (lowerL h.data)) ∧
      (∀ ctx : GateContext,
        isOnline ctx = ".tableau.com".data.isSuffixOf (lowerL ctx.hostname.data)) ∧
      tableauOnlineSearch "tableau.com" = false ∧
      (∀ uri : String,
        (strStartsWith uri "http://" || strStartsWith uri "https://") = false →
        normalizeBaseUri uri = "https://" ++ uri) := by
  have h1 : ∀ h : String,
      tableauOnlineSearch h = ".tableau.com".data.isSuffixOf (lowerL h.data) := by
    intro h
    unfold tableauOnlineSearch
    cases hA : ".online.tableau.com".data.isSuffixOf (lowerL h.data) with
    | true => simp [isSuffixOf_tableau_of_online hA]
    | false => simp
  refine ⟨h1, ?_, by decide, ?_⟩
  · intro ctx
    unfold isOnline
    by_cases hh : ctx.hostname = ""
    · rw [if_pos hh, hh]
      decide
    · rw [if_neg hh, h1]
  · intro uri hne
    unfold normalizeBaseUri
    rw [hne]
    simp

/-- C10 witness: the scheme-rewrite clause evaluated at a bare server
name. -/
theorem c10_witness :
    ((strStartsWith "myserver.com" "http://" || strStartsWith "myserver.com" "https://") = false) ∧
      normalizeBaseUri "myserver.com" = "https://" ++ "myserver.com" :=
  ⟨by decide, c10_hosted_classification.2.2.2 "myserver.com" (by decide)⟩

/-- C8: invoking a gated operation whose resolved key is marked
on-premise-only against a hosted-classified deployment fails with
`DeploymentNotSupported` and performs zero transport invocations; the
minimum-version table is consulted first, so the hypothesis rules out a
preceding version failure for the same key. -/
theorem c8_on_premise_gate (ctx : GateContext) (key : String)
    (hprem : ctx.meta.onPremiseOnlyEndpoints.contains key = true)
    (honline : isOnline ctx = true)
    (hver : ∀ req, ctx.meta.minVersionForEndpoints.lookup key = some req →
      pyTupleLt ctx.apiVersion req = false) :
    invokeGated ctx key = (.error .deploymentNotSupported, 0) := by
  unfold invokeGated checkEndpointAvailability
  have hv : (match ctx.meta.minVersionForEndpoints.lookup key with
      | some req => pyTupleLt ctx.apiVersion req
      | none => false) = false := by
    cases hl : ctx.meta.minVersionForEndpoints.lookup key with
    | none => rfl
    | some req => exact hver req hl
  have hmem : key ∈ ctx.meta.onPremiseOnlyEndpoints := by
    simpa using hprem
  simp [hv, hmem, honline]

/-- C8 witness: the gate theorem at a hosted hostname, an on-premise-only
key and a satisfied minimum version. -/
theorem c8_witness :
    (GateContext.mk "mysite.online.tableau.com" (3, 23)
        ⟨[("x.op", (2, 5))], ["x.op"]⟩).meta.onPremiseOnlyEndpoints.contains "x.op" = true ∧
      isOnline (GateContext.mk "mysite.online.tableau.com" (3, 23)
        ⟨[("x.op", (2, 5))], ["x.op"]⟩) = true ∧
      invokeGated (GateContext.mk "mysite.online.tableau.com" (3, 23)
        ⟨[("x.op", (2, 5))], ["x.op"]⟩) "x.op" = (.error .deploymentNotSupported, 0) :=
  ⟨by decide, by decide,
    c8_on_premise_gate
      (GateContext.mk "mysite.online.tableau.com" (3, 23) ⟨[("x.op", (2, 5))], ["x.op"]⟩)
      "x.op" (by decide) (by decide)
      (by
        intro req hreq
        have h2 : (some ((2 : Int), (5 : Int)) : Option (Int × Int)) = some req := hreq
        have h3 : req = ((2 : Int), (5 : Int)) := (Option.some.inj h2).symm
        subst h3
        decide)⟩

/-- C5 witness: the trace theorem evaluated on a single clamped read over
a three-byte source with bound 2. -/
theorem c5_witness :
    runBOps [BOp.opRead (some 10)] (mkBStream ⟨[65, 66, 67], 0⟩ 2) =
        some (⟨⟨[65, 66, 67], 2⟩, 0, 2⟩, [0, 1]) ∧
      ((∀ q ∈ ([0, 1] : List Nat),
          q < (mkBStream ⟨[65, 66, 67], 0⟩ 2).start + (mkBStream ⟨[65, 66, 67], 0⟩ 2).maxBytes ∧
            q < (mkBStream ⟨[65, 66, 67], 0⟩ 2).src.data.length) ∧
        (⟨⟨[65, 66, 67], 2⟩, 0, 2⟩ : BStream).start = (mkBStream ⟨[65, 66, 67], 0⟩ 2).start ∧
        (⟨⟨[65, 66, 67], 2⟩, 0, 2⟩ : BStream).maxBytes =
          (mkBStream ⟨[65, 66, 67], 0⟩ 2).maxBytes ∧
        (⟨⟨[65, 66, 67], 2⟩, 0, 2⟩ : BStream).src.data =
          (mkBStream ⟨[65, 66, 67], 0⟩ 2).src.data) :=
  ⟨by decide,
    c5_amended [BOp.opRead (some 10)] (mkBStream ⟨[65, 66, 67], 0⟩ 2)
      ⟨⟨[65, 66, 67], 2⟩, 0, 2⟩ [0, 1] (by decide)⟩
